import Mathlib

/-!
Shallow embedding of the shader resource & binding descriptor model of
`src/shader_recompiler/info.h` (shadPS4), together with proofs of the
specified properties.

Machine integers (`u32`, pointers) are modelled as `Nat`; reductions
modulo `2 ^ w` are written explicitly where the C++ semantics truncates.
Emulated GPU memory is a byte-addressed function `Nat → Nat`; the
captured user-data registers are a `List Nat` of 32-bit words.
-/

namespace Shader

/-- `static constexpr size_t NumUserDataRegs = 16;` -/
def NumUserDataRegs : Nat := 16

/-- `static constexpr size_t MaxUboSize = 65536;` -/
def MaxUboSize : Nat := 65536

/-- `static constexpr size_t MaxUboDwords = MaxUboSize >> 2;` -/
def MaxUboDwords : Nat := MaxUboSize >>> 2

/-- Modelled from the spec: `IR::NumScalarRegs` (`shader_recompiler/ir/reg.h` is not
part of the shown sources), the number of hardware scalar registers, used by
`Info::ReadUd` as the "no indirection" sentinel.  The theorems below do not
depend on its concrete value. -/
def NumScalarRegs : Nat := 104

/-- `std::popcount` on a `u32`: the number of set bits among bits `0..31`. -/
def popcount (n : Nat) : Nat :=
  (List.range 32).countP fun j => n.testBit j

/-- Fuel-driven helper for `countr_zero`: counts trailing zero bits,
consuming one fuel per inspected bit. -/
def countr_zeroAux : Nat → Nat → Nat
  | 0, _ => 0
  | fuel + 1, n => if n % 2 = 1 then 0 else countr_zeroAux fuel (n / 2) + 1

/-- `std::countr_zero` on a `u32`: the index of the lowest set bit,
or `32` when no bit among `0..31` is set. -/
def countr_zero (n : Nat) : Nat := countr_zeroAux 32 n

/-- `VAddr(base) & 0xFFFFFFFFFFFFULL`: the pointer mask used by `Info::ReadUd`
to discard the metadata stored in the upper bits of a descriptor pointer. -/
def AddressMask48 : Nat := 0xFFFFFFFFFFFF

namespace AmdGpu

/-- Modelled from the spec: the buffer "sharp" (`video_core/amdgpu/resource.h`
is not part of the shown sources); a fixed-size descriptor recording a
resource's address and bounds.  Only the fields the claims mention are
modelled: the base address and the size in bytes reported by `GetSize`. -/
structure Buffer where
  base_address : Nat
  size : Nat
deriving Repr, DecidableEq

/-- Modelled from the spec: `AmdGpu::Buffer::GetSize`, the descriptor's size
in bytes. -/
def Buffer.GetSize (b : Buffer) : Nat := b.size

/-- Modelled from the spec: the sampler "sharp", an opaque fixed-size
descriptor; its contents are irrelevant to the claims. -/
structure Sampler where
  raw : Nat
deriving Repr, DecidableEq

/-- Modelled from the spec: the image "sharp", an opaque fixed-size
descriptor; its contents are irrelevant to the claims. -/
structure Image where
  raw : Nat
deriving Repr, DecidableEq

end AmdGpu

/-- `sizeof(AmdGpu::Buffer)` in bytes (a 128-bit V# descriptor), the `T` size
used when `ReadUd` is instantiated at `AmdGpu::Buffer`. -/
def BufferSharpBytes : Nat := 16

/-- `sizeof(AmdGpu::Sampler)` in bytes (a 128-bit S# descriptor). -/
def SamplerSharpBytes : Nat := 16

/-- `struct BufferResource` — where to find one buffer descriptor.
`inline_cbuf` is `some b` when the entry carries an inline descriptor
(the C++ field is an `AmdGpu::Buffer` whose truthiness test is modelled
from the spec as presence, since `resource.h` is not among the shown
sources). -/
structure BufferResource where
  sgpr_base : Nat
  dword_offset : Nat
  used_types : Nat := 0
  inline_cbuf : Option AmdGpu.Buffer := none
  is_gds_buffer : Bool := false
  is_instance_data : Bool := false
  is_written : Bool := false
deriving Repr, DecidableEq

/-- `BufferResource::IsStorage`:
`buffer.GetSize() > MaxUboSize || is_written || is_gds_buffer`. -/
def BufferResource.IsStorage (r : BufferResource) (buffer : AmdGpu.Buffer) : Bool :=
  decide (buffer.GetSize > MaxUboSize) || r.is_written || r.is_gds_buffer

/-- `struct TextureBufferResource`. -/
structure TextureBufferResource where
  sgpr_base : Nat
  dword_offset : Nat
  nfmt : Nat := 0
  is_written : Bool := false
deriving Repr, DecidableEq

/-- `struct ImageResource`. -/
structure ImageResource where
  sgpr_base : Nat
  dword_offset : Nat
  type : Nat := 0
  nfmt : Nat := 0
  is_storage : Bool := false
  is_depth : Bool := false
  is_atomic : Bool := false
  is_array : Bool := false
deriving Repr, DecidableEq

/-- `struct SamplerResource`.  `inline_sampler` is `some s` when the entry
carries an inline sampler (truthiness modelled as presence, as for
`BufferResource.inline_cbuf`). -/
structure SamplerResource where
  sgpr_base : Nat
  dword_offset : Nat
  inline_sampler : Option AmdGpu.Sampler := none
  associated_image : Nat := 0
  disable_aniso : Nat := 0
deriving Repr, DecidableEq

/-- `struct PushData` — the per-draw constant block: two step-rate words, a
32-entry byte array of per-binding offsets and `NumUserDataRegs` compacted
32-bit register words. -/
structure PushData where
  step0 : Nat
  step1 : Nat
  buf_offsets : List Nat
  ud_regs : List Nat
deriving Repr, DecidableEq

/-- `PushData::BufOffsetIndex`. -/
def PushData.BufOffsetIndex : Nat := 2

/-- `PushData::UdRegsIndex`. -/
def PushData.UdRegsIndex : Nat := 4

/-- `PushData::AddOffset`: `ASSERT(offset < 256 && binding < buf_offsets.size());
buf_offsets[binding] = offset;` — `none` models the failed assertion. -/
def PushData.AddOffset (p : PushData) (binding offset : Nat) : Option PushData :=
  if offset < 256 ∧ binding < p.buf_offsets.length then
    some { p with buf_offsets := p.buf_offsets.set binding offset }
  else none

/-- The little-endian byte representation of the low `w` bytes of `v`. -/
def bytesLE (w v : Nat) : List Nat :=
  (List.range w).map fun k => (v >>> (8 * k)) % 256

/-- The byte image of a `PushData` value as laid out by the C++ struct
(no padding: two `u32`, then `std::array<u8, 32>`, then
`std::array<u32, NumUserDataRegs>`). -/
def PushData.toBytes (p : PushData) : List Nat :=
  bytesLE 4 p.step0 ++ bytesLE 4 p.step1 ++
    ((List.range 32).map fun i => p.buf_offsets.getD i 0 % 256) ++
    (((List.range NumUserDataRegs).map fun i => bytesLE 4 (p.ud_regs.getD i 0)).flatten)

/-- `struct Info::UserDataMask` — a bitmask over the scalar user-data
registers (`u32 mask`). -/
structure UserDataMask where
  mask : Nat
deriving Repr, DecidableEq

/-- `UserDataMask::Set`: `mask |= 1 << static_cast<u32>(reg);` -/
def UserDataMask.Set (m : UserDataMask) (reg : Nat) : UserDataMask :=
  ⟨m.mask ||| (1 <<< reg)⟩

/-- `UserDataMask::Index`: `popcount(mask & ((1 << reg) - 1))`. -/
def UserDataMask.Index (m : UserDataMask) (reg : Nat) : Nat :=
  popcount (m.mask &&& ((1 <<< reg) - 1))

/-- `UserDataMask::NumRegs`: `popcount(mask)`. -/
def UserDataMask.NumRegs (m : UserDataMask) : Nat :=
  popcount m.mask

namespace Backend

/-- Modelled from the spec: `Backend::Bindings`
(`shader_recompiler/backend/bindings.h` is not part of the shown sources) —
the binding accumulator's running counters: unified slot, buffer slot and
user-data register slot, as described in spec sections 3 and 4.3. -/
structure Bindings where
  unified : Nat := 0
  buffer : Nat := 0
  user_data : Nat := 0
deriving Repr, DecidableEq

end Backend

/-- `struct Info` — the per-stage metadata record.  Analysis-only fields that
no claim mentions (vertex inputs, attribute flags, capability booleans,
program hash and base) are omitted; `user_data` is the captured register
snapshot (`std::span<const u32>`). -/
structure Info where
  ud_mask : UserDataMask := ⟨0⟩
  vertex_offset_sgpr : Int := -1
  instance_offset_sgpr : Int := -1
  buffers : List BufferResource := []
  texture_buffers : List TextureBufferResource := []
  images : List ImageResource := []
  samplers : List SamplerResource := []
  user_data : List Nat := []
deriving Repr, DecidableEq

/-- Byte `k` of the little-endian image of the user-data register file
(register words are 32 bits wide). -/
def udRegByte (ud : List Nat) (k : Nat) : Nat :=
  (ud.getD (k / 4) 0 >>> (8 * (k % 4))) % 256

/-- `Info::ReadUd<T>` with `sizeof(T) = tsize`, returning the `tsize` bytes
that the C++ `memcpy` copies into the result.  When `ptr_index` is not the
sentinel `IR::NumScalarRegs`, an 8-byte pointer is loaded from the two
user-data words at `ptr_index` (little endian), masked with
`AddressMask48`, and the bytes are read from emulated memory `mem` at that
address plus `4 * dword_offset`; otherwise the bytes come directly from the
user-data words themselves at byte offset `4 * dword_offset`. -/
def Info.ReadUd (info : Info) (mem : Nat → Nat) (tsize ptr_index dword_offset : Nat) :
    List Nat :=
  if ptr_index ≠ NumScalarRegs then
    (List.range tsize).map fun k =>
      mem (((info.user_data.getD ptr_index 0 +
        2 ^ 32 * info.user_data.getD (ptr_index + 1) 0) &&& AddressMask48) +
        4 * dword_offset + k)
  else
    (List.range tsize).map fun k => udRegByte info.user_data (4 * dword_offset + k)

/-- The loop body of `Info::PushUd`:
`while (mask) { index = countr_zero(mask); ASSERT(pos < NumUserDataRegs &&
index < NumUserDataRegs); mask &= ~(1U << index);
regs[pos++] = user_data[index]; }` — `none` models the failed assertion,
`some` returns the final counter and register array.  `~(1U << index)` is
the 32-bit complement `0xFFFFFFFF ^^^ (1 <<< index)`. -/
def pushUdAux (user_data : List Nat) (mask pos : Nat) (regs : List Nat) :
    Option (Nat × List Nat) :=
  if hm : mask = 0 then some (pos, regs)
  else
    if hg : pos < NumUserDataRegs ∧ countr_zero mask < NumUserDataRegs then
      pushUdAux user_data (mask &&& (4294967295 ^^^ (1 <<< countr_zero mask)))
        (pos + 1) (regs.set pos (user_data.getD (countr_zero mask) 0))
    else none
termination_by NumUserDataRegs - pos
decreasing_by
  omega

/-- `Info::PushUd(Backend::Bindings& bnd, PushData& push)`: walks the set
bits of `ud_mask` from lowest to highest, copying each used register into
`push.ud_regs` at `bnd.user_data++`; `none` models the failed `ASSERT`. -/
def Info.PushUd (info : Info) (bnd : Backend.Bindings) (push : PushData) :
    Option (Backend.Bindings × PushData) :=
  match pushUdAux info.user_data info.ud_mask.mask bnd.user_data push.ud_regs with
  | some (u, regs) => some ({ bnd with user_data := u }, { push with ud_regs := regs })
  | none => none

/-- `Info::AddBindings(Backend::Bindings& bnd)`. -/
def Info.AddBindings (info : Info) (bnd : Backend.Bindings) : Backend.Bindings :=
  { bnd with
    buffer := bnd.buffer + (info.buffers.length + info.texture_buffers.length)
    unified := bnd.unified + (info.buffers.length + info.texture_buffers.length) +
      info.images.length + info.samplers.length
    user_data := bnd.user_data + info.ud_mask.NumRegs }

/-- `Info::GetDrawOffsets`. -/
def Info.GetDrawOffsets (info : Info) : Nat × Nat :=
  let vertex_offset :=
    if info.vertex_offset_sgpr ≠ -1 then
      info.user_data.getD info.vertex_offset_sgpr.toNat 0
    else 0
  let instance_offset :=
    if info.instance_offset_sgpr ≠ -1 then
      info.user_data.getD info.instance_offset_sgpr.toNat 0
    else 0
  (vertex_offset, instance_offset)

/-- A stage record with 2 buffers, 1 texel buffer, 1 image, 0 samplers and a
register mask with 3 bits set — the end-to-end binding-allocator scenario of
the spec. -/
def scenarioC1 : Info :=
  { buffers := [{ sgpr_base := 0, dword_offset := 0 }, { sgpr_base := 2, dword_offset := 0 }]
    texture_buffers := [{ sgpr_base := 4, dword_offset := 0 }]
    images := [{ sgpr_base := 6, dword_offset := 0 }]
    samplers := []
    ud_mask := ⟨0b111⟩ }

/-- A stage record whose user-data mask has bits {2, 5, 9} set, over a full
16-word register snapshot. -/
def scenarioC2 : Info :=
  { ud_mask := ⟨0b1000100100⟩
    user_data := [100, 101, 102, 103, 104, 105, 106, 107,
      108, 109, 110, 111, 112, 113, 114, 115] }

/-- A per-draw constant block with zeroed arrays of the fixed C++ sizes. -/
def zeroPush : PushData :=
  { step0 := 0, step1 := 0, buf_offsets := List.replicate 32 0
    ud_regs := List.replicate NumUserDataRegs 0 }

/-- A stage record whose user-data mask has the out-of-range bits 16 and 17
set. -/
def scenarioC7 : Info := { ud_mask := ⟨0b110000000000000000⟩ }

/-- A stage record with the vertex-offset register field set to index 3
(`user_data[3] = 0x40`) and the instance-offset field left at the
sentinel. -/
def scenarioC8 : Info :=
  { vertex_offset_sgpr := 3, instance_offset_sgpr := -1
    user_data := [1, 2, 3, 0x40, 5] }

/-- A buffer resource entry carrying an inline descriptor. -/
def inlineBufferEntry : BufferResource :=
  { sgpr_base := 0, dword_offset := 0, inline_cbuf := some ⟨0x1000, 64⟩ }

/-- A sampler resource entry carrying an inline sampler. -/
def inlineSamplerEntry : SamplerResource :=
  { sgpr_base := 0, dword_offset := 0, inline_sampler := some ⟨42⟩ }

/-- A stage record whose registers 0 and 1 hold a pointer with metadata in
its upper 16 bits. -/
def scenarioC6 : Info := { user_data := [0x89ABCDEF, 0x00FF1234] }

/-- `BufferResource::GetSharp`:
`inline_cbuf ? inline_cbuf : info.ReadUd<AmdGpu::Buffer>(sgpr_base, dword_offset)`.
The `memcpy` of the read bytes into an `AmdGpu::Buffer` value is the
decoding function `dec`, passed explicitly because the descriptor's field
layout is not among the shown sources. -/
def BufferResource.GetSharp (r : BufferResource) (dec : List Nat → AmdGpu.Buffer)
    (info : Info) (mem : Nat → Nat) : AmdGpu.Buffer :=
  match r.inline_cbuf with
  | some b => b
  | none => dec (info.ReadUd mem BufferSharpBytes r.sgpr_base r.dword_offset)

/-- `TextureBufferResource::GetSharp`:
`info.ReadUd<AmdGpu::Buffer>(sgpr_base, dword_offset)`. -/
def TextureBufferResource.GetSharp (r : TextureBufferResource)
    (dec : List Nat → AmdGpu.Buffer) (info : Info) (mem : Nat → Nat) : AmdGpu.Buffer :=
  dec (info.ReadUd mem BufferSharpBytes r.sgpr_base r.dword_offset)

/-- `SamplerResource::GetSharp`:
`inline_sampler ? inline_sampler : info.ReadUd<AmdGpu::Sampler>(sgpr_base, dword_offset)`. -/
def SamplerResource.GetSharp (r : SamplerResource) (dec : List Nat → AmdGpu.Sampler)
    (info : Info) (mem : Nat → Nat) : AmdGpu.Sampler :=
  match r.inline_sampler with
  | some s => s
  | none => dec (info.ReadUd mem SamplerSharpBytes r.sgpr_base r.dword_offset)

/-! ### Bit-level helper lemmas -/

theorem testBit_lt_of_lt_two_pow {n k i : Nat} (h : n < 2 ^ k) (hb : n.testBit i = true) :
    i < k := by
  by_contra hc
  have hk : k ≤ i := Nat.le_of_not_lt hc
  have hlt : n < 2 ^ i := lt_of_lt_of_le h (Nat.pow_le_pow_right (by decide) hk)
  rw [Nat.testBit_lt_two_pow hlt] at hb
  exact Bool.false_ne_true hb

theorem lt_two_pow_of_testBit_lt {n k : Nat} (h : ∀ i, n.testBit i = true → i < k) :
    n < 2 ^ k := by
  have hz : n >>> k = 0 := by
    apply Nat.eq_of_testBit_eq
    intro j
    rw [Nat.testBit_shiftRight, Nat.zero_testBit]
    cases hb : n.testBit (k + j) with
    | false => rfl
    | true => exact absurd (h _ hb) (by omega)
  rw [Nat.shiftRight_eq_div_pow] at hz
  exact (Nat.div_eq_zero_iff (Nat.pos_pow_of_pos k (by decide))).mp hz

theorem countr_zeroAux_testBit :
    ∀ fuel n, countr_zeroAux fuel n < fuel → n.testBit (countr_zeroAux fuel n) = true := by
  intro fuel
  induction fuel with
  | zero => intro n h; exact absurd h (by omega)
  | succ fuel ih =>
    intro n h
    by_cases hm : n % 2 = 1
    · simp [countr_zeroAux, hm]
    · have h' : countr_zeroAux fuel (n / 2) < fuel := by
        simp only [countr_zeroAux, if_neg hm] at h
        omega
      simp only [countr_zeroAux, if_neg hm, Nat.testBit_add_one]
      exact ih (n / 2) h'

theorem countr_zeroAux_lt :
    ∀ fuel n, n ≠ 0 → n < 2 ^ fuel → countr_zeroAux fuel n < fuel := by
  intro fuel
  induction fuel with
  | zero => intro n h0 h1; simp at h1; omega
  | succ fuel ih =>
    intro n h0 h1
    by_cases hm : n % 2 = 1
    · simp [countr_zeroAux, hm]
    · have hd0 : n / 2 ≠ 0 := by omega
      have hd1 : n / 2 < 2 ^ fuel := by
        rw [pow_succ] at h1
        omega
      have := ih (n / 2) hd0 hd1
      simp only [countr_zeroAux, if_neg hm]
      omega

theorem countr_zeroAux_min :
    ∀ fuel n j, j < countr_zeroAux fuel n → n.testBit j = false := by
  intro fuel
  induction fuel with
  | zero => intro n j h; simp [countr_zeroAux] at h
  | succ fuel ih =>
    intro n j h
    by_cases hm : n % 2 = 1
    · simp [countr_zeroAux, hm] at h
    · simp only [countr_zeroAux, if_neg hm] at h
      match j with
      | 0 => simp [Nat.testBit_zero, hm]
      | j + 1 =>
        rw [Nat.testBit_add_one]
        exact ih (n / 2) j (by omega)

theorem countr_zero_testBit {n : Nat} (h : countr_zero n < 32) :
    n.testBit (countr_zero n) = true :=
  countr_zeroAux_testBit 32 n h

theorem countr_zero_lt {n : Nat} (h0 : n ≠ 0) (h1 : n < 2 ^ 32) : countr_zero n < 32 :=
  countr_zeroAux_lt 32 n h0 h1

theorem countr_zero_min {n j : Nat} (h : j < countr_zero n) : n.testBit j = false :=
  countr_zeroAux_min 32 n j h

theorem countP_range_eq_card (p : Nat → Bool) :
    ∀ k, (List.range k).countP p = ((Finset.range k).filter fun j => p j = true).card := by
  intro k
  induction k with
  | zero => simp
  | succ k ih =>
    rw [List.range_succ, List.countP_append, Finset.range_succ, Finset.filter_insert]
    by_cases hp : p k = true
    · rw [if_pos hp, Finset.card_insert_of_not_mem (by simp)]
      simp [List.countP_cons, hp, ih]
    · rw [if_neg hp]
      simp [List.countP_cons, hp, ih]

theorem popcount_eq_card (n : Nat) :
    popcount n = ((Finset.range 32).filter fun j => n.testBit j = true).card :=
  countP_range_eq_card _ 32

theorem popcount_mod_two_pow_card (m r : Nat) (hr : r ≤ 32) :
    popcount (m % 2 ^ r) = ((Finset.range r).filter fun j => m.testBit j = true).card := by
  rw [popcount_eq_card]
  apply congrArg Finset.card
  apply Finset.ext
  intro j
  simp only [Finset.mem_filter, Finset.mem_range, Nat.testBit_mod_two_pow,
    Bool.and_eq_true, decide_eq_true_eq]
  constructor
  · rintro ⟨_, h1, h2⟩; exact ⟨h1, h2⟩
  · rintro ⟨h1, h2⟩; exact ⟨by omega, h1, h2⟩

theorem UserDataMask.Index_eq_card (m : UserDataMask) (r : Nat) (hr : r ≤ 32) :
    m.Index r = ((Finset.range r).filter fun j => m.mask.testBit j = true).card := by
  unfold UserDataMask.Index
  rw [Nat.one_shiftLeft, Nat.and_pow_two_sub_one_eq_mod]
  exact popcount_mod_two_pow_card m.mask r hr

theorem UserDataMask.NumRegs_eq_card (m : UserDataMask) :
    m.NumRegs = ((Finset.range 32).filter fun j => m.mask.testBit j = true).card :=
  popcount_eq_card m.mask

theorem testBit_clear32 (m i j : Nat) (hi : i < 32) :
    (m &&& (4294967295 ^^^ (1 <<< i))).testBit j =
      (m.testBit j && (decide (j < 32) && !(j == i))) := by
  have h32 : (4294967295 : Nat) = 2 ^ 32 - 1 := by norm_num
  rw [Nat.testBit_and, Nat.testBit_xor, h32, Nat.testBit_two_pow_sub_one,
    Nat.one_shiftLeft, Nat.testBit_two_pow]
  by_cases hij : i = j
  · subst hij
    simp [hi]
  · have hji : ¬(j = i) := fun h => hij h.symm
    by_cases hj : j < 32
    · simp [hj, hij, hji]
    · simp [hj, hij, hji]

theorem filter_clear32 (m i0 k : Nat) (hi0 : i0 < 32) (hk : k ≤ 32) :
    ((Finset.range k).filter fun j =>
        (m &&& (4294967295 ^^^ (1 <<< i0))).testBit j = true) =
      ((Finset.range k).filter fun j => m.testBit j = true).erase i0 := by
  apply Finset.ext
  intro j
  simp only [Finset.mem_filter, Finset.mem_range, Finset.mem_erase,
    testBit_clear32 m i0 j hi0, Bool.and_eq_true, decide_eq_true_eq,
    Bool.not_eq_true', beq_eq_false_iff_ne]
  constructor
  · rintro ⟨hjk, hbj, _, hne⟩
    exact ⟨hne, hjk, hbj⟩
  · rintro ⟨hne, hjk, hbj⟩
    exact ⟨hjk, hbj, by omega, hne⟩

theorem getD_set_self (l : List Nat) (n v : Nat) (h : n < l.length) :
    (l.set n v).getD n 0 = v := by
  simp [List.getD_eq_getElem?_getD, List.getElem?_set, h]

theorem getD_set_ne (l : List Nat) (n m v : Nat) (h : n ≠ m) :
    (l.set n v).getD m 0 = l.getD m 0 := by
  simp [List.getD_eq_getElem?_getD, List.getElem?_set, h]

theorem flatten_length_const {α : Type} (L : List (List α)) (w : Nat)
    (h : ∀ l ∈ L, l.length = w) : L.flatten.length = L.length * w := by
  induction L with
  | nil => simp
  | cons a L ih =>
    have ha : a.length = w := h a (by simp)
    have hL := ih fun l hl => h l (by simp [hl])
    simp [ha, hL, Nat.succ_mul]
    omega

/-! ### Unfolding equations for the `PushUd` loop -/

theorem pushUdAux_zero (ud regs : List Nat) (pos : Nat) :
    pushUdAux ud 0 pos regs = some (pos, regs) := by
  rw [pushUdAux]
  simp

theorem pushUdAux_step (ud regs : List Nat) (mask pos : Nat) (hm : mask ≠ 0)
    (h1 : pos < NumUserDataRegs) (h2 : countr_zero mask < NumUserDataRegs) :
    pushUdAux ud mask pos regs =
      pushUdAux ud (mask &&& (4294967295 ^^^ (1 <<< countr_zero mask)))
        (pos + 1) (regs.set pos (ud.getD (countr_zero mask) 0)) := by
  conv_lhs => rw [pushUdAux]
  rw [dif_neg hm, dif_pos ⟨h1, h2⟩]

theorem pushUdAux_fail (ud regs : List Nat) (mask pos : Nat) (hm : mask ≠ 0)
    (hg : ¬(pos < NumUserDataRegs ∧ countr_zero mask < NumUserDataRegs)) :
    pushUdAux ud mask pos regs = none := by
  conv_lhs => rw [pushUdAux]
  rw [dif_neg hm, dif_neg hg]

/-! ### Behaviour of the `PushUd` loop -/

theorem pushUdAux_spec (ud : List Nat) :
    ∀ mask, mask < 2 ^ 16 → ∀ pos regs,
      pos + popcount mask ≤ 16 → regs.length = 16 →
      ∃ regs',
        pushUdAux ud mask pos regs = some (pos + popcount mask, regs') ∧
        regs'.length = 16 ∧
        (∀ i, mask.testBit i = true →
          regs'.getD (pos + ((Finset.range i).filter fun j => mask.testBit j = true).card) 0 =
            ud.getD i 0) ∧
        (∀ q, q < pos → regs'.getD q 0 = regs.getD q 0) := by
  intro mask
  induction mask using Nat.strong_induction_on with
  | _ mask ih =>
    intro hm16 pos regs hcap hlen
    by_cases hm0 : mask = 0
    · subst hm0
      have hpc0 : popcount 0 = 0 := by decide
      refine ⟨regs, ?_, hlen, ?_, fun q _ => rfl⟩
      · rw [hpc0, Nat.add_zero, pushUdAux_zero]
      · intro i hb
        rw [Nat.zero_testBit] at hb
        exact absurd hb (by simp)
    · have hm32 : mask < 2 ^ 32 := lt_of_lt_of_le hm16 (by norm_num)
      have hi0lt32 : countr_zero mask < 32 := countr_zero_lt hm0 hm32
      have hb0 : mask.testBit (countr_zero mask) = true := countr_zero_testBit hi0lt32
      have hi016 : countr_zero mask < 16 := testBit_lt_of_lt_two_pow hm16 hb0
      have hmem : countr_zero mask ∈
          (Finset.range 32).filter fun j => mask.testBit j = true := by
        simp [Finset.mem_filter, Finset.mem_range, hi0lt32, hb0]
      have hpc1 : 1 ≤ popcount mask := by
        rw [popcount_eq_card]
        exact Finset.card_pos.mpr ⟨_, hmem⟩
      have hpos : pos < 16 := by omega
      have hm'16 : mask &&& (4294967295 ^^^ (1 <<< countr_zero mask)) < 2 ^ 16 :=
        lt_of_le_of_lt Nat.and_le_left hm16
      have hpc' : popcount (mask &&& (4294967295 ^^^ (1 <<< countr_zero mask))) =
          popcount mask - 1 := by
        rw [popcount_eq_card, popcount_eq_card,
          filter_clear32 mask (countr_zero mask) 32 hi0lt32 le_rfl,
          Finset.card_erase_of_mem hmem]
      have hm'lt : mask &&& (4294967295 ^^^ (1 <<< countr_zero mask)) < mask := by
        have hfalse : (mask &&& (4294967295 ^^^ (1 <<< countr_zero mask))).testBit
            (countr_zero mask) = false := by
          rw [testBit_clear32 mask (countr_zero mask) (countr_zero mask) hi0lt32]
          simp
        refine lt_of_le_of_ne Nat.and_le_left fun heq => ?_
        rw [heq, hb0] at hfalse
        exact absurd hfalse (by simp)
      have hcap' : (pos + 1) +
          popcount (mask &&& (4294967295 ^^^ (1 <<< countr_zero mask))) ≤ 16 := by
        omega
      have hlen' : (regs.set pos (ud.getD (countr_zero mask) 0)).length = 16 := by
        simp [hlen]
      obtain ⟨regs', heq, hlen'', hget, hpres⟩ :=
        ih _ hm'lt hm'16 (pos + 1) (regs.set pos (ud.getD (countr_zero mask) 0)) hcap' hlen'
      refine ⟨regs', ?_, hlen'', ?_, ?_⟩
      · have harith : (pos + 1) +
            popcount (mask &&& (4294967295 ^^^ (1 <<< countr_zero mask))) =
            pos + popcount mask := by omega
        rw [pushUdAux_step ud regs mask pos hm0 hpos hi016, heq, harith]
      · intro i hbi
        by_cases hii : i = countr_zero mask
        · subst hii
          have hempty :
              ((Finset.range (countr_zero mask)).filter fun j => mask.testBit j = true) = ∅ := by
            apply Finset.eq_empty_iff_forall_not_mem.mpr
            intro j hj
            obtain ⟨hjlt, hjb⟩ := Finset.mem_filter.mp hj
            rw [countr_zero_min (Finset.mem_range.mp hjlt)] at hjb
            exact absurd hjb (by simp)
          rw [hempty]
          simp only [Finset.card_empty, Nat.add_zero]
          rw [hpres pos (by omega), getD_set_self regs pos _ (by omega)]
        · have hbi' : (mask &&& (4294967295 ^^^ (1 <<< countr_zero mask))).testBit i
              = true := by
            rw [testBit_clear32 mask (countr_zero mask) i hi0lt32]
            have hi32 : i < 32 := testBit_lt_of_lt_two_pow hm32 hbi
            simp [hbi, hi32, hii]
          have hi0lti : countr_zero mask < i := by
            rcases Nat.lt_or_ge i (countr_zero mask) with hlt | hge
            · rw [countr_zero_min hlt] at hbi
              exact absurd hbi (by simp)
            · omega
          have hi32 : i < 32 := testBit_lt_of_lt_two_pow hm32 hbi
          have hmemi : countr_zero mask ∈
              (Finset.range i).filter fun j => mask.testBit j = true := by
            simp [Finset.mem_filter, Finset.mem_range, hi0lti, hb0]
          have hcard :
              ((Finset.range i).filter fun j =>
                (mask &&& (4294967295 ^^^ (1 <<< countr_zero mask))).testBit j = true).card =
              ((Finset.range i).filter fun j => mask.testBit j = true).card - 1 := by
            rw [filter_clear32 mask (countr_zero mask) i hi0lt32 (by omega),
              Finset.card_erase_of_mem hmemi]
          have hcardpos :
              1 ≤ ((Finset.range i).filter fun j => mask.testBit j = true).card :=
            Finset.card_pos.mpr ⟨_, hmemi⟩
          have hidx : (pos + 1) +
              ((Finset.range i).filter fun j =>
                (mask &&& (4294967295 ^^^ (1 <<< countr_zero mask))).testBit j = true).card =
              pos + ((Finset.range i).filter fun j => mask.testBit j = true).card := by
            omega
          have := hget i hbi'
          rw [hidx] at this
          exact this
      · intro q hq
        rw [hpres q (by omega), getD_set_ne regs pos q _ (by omega)]

theorem and_clear_lt (mask : Nat) (h0 : mask ≠ 0) (h32 : mask < 2 ^ 32) :
    mask &&& (4294967295 ^^^ (1 <<< countr_zero mask)) < mask := by
  have hi0 : countr_zero mask < 32 := countr_zero_lt h0 h32
  have hb0 : mask.testBit (countr_zero mask) = true := countr_zero_testBit hi0
  have hfalse : (mask &&& (4294967295 ^^^ (1 <<< countr_zero mask))).testBit
      (countr_zero mask) = false := by
    rw [testBit_clear32 mask (countr_zero mask) (countr_zero mask) hi0]
    simp
  refine lt_of_le_of_ne Nat.and_le_left fun heq => ?_
  rw [heq, hb0] at hfalse
  exact absurd hfalse (by simp)

theorem pushUdAux_none_highbit (ud : List Nat) :
    ∀ mask, mask < 2 ^ 32 →
      ∀ i, mask.testBit i = true → 16 ≤ i →
        ∀ pos regs, pushUdAux ud mask pos regs = none := by
  intro mask
  induction mask using Nat.strong_induction_on with
  | _ mask ih =>
    intro hm32 i hbi hi16 pos regs
    have hm0 : mask ≠ 0 := by
      intro h
      subst h
      rw [Nat.zero_testBit] at hbi
      exact absurd hbi (by simp)
    by_cases hg : pos < NumUserDataRegs ∧ countr_zero mask < NumUserDataRegs
    · rw [pushUdAux_step ud regs mask pos hm0 hg.1 hg.2]
      have hgi : countr_zero mask < 16 := hg.2
      have hi32 : i < 32 := testBit_lt_of_lt_two_pow hm32 hbi
      have hne : ¬(i = countr_zero mask) := by omega
      have hbi' : (mask &&& (4294967295 ^^^ (1 <<< countr_zero mask))).testBit i = true := by
        rw [testBit_clear32 mask (countr_zero mask) i (countr_zero_lt hm0 hm32)]
        simp [hbi, hi32, hne]
      exact ih _ (and_clear_lt mask hm0 hm32) (lt_of_le_of_lt Nat.and_le_left hm32)
        i hbi' hi16 (pos + 1) _
    · exact pushUdAux_fail ud regs mask pos hm0 hg

theorem pushUdAux_none_overflow (ud : List Nat) :
    ∀ mask, mask < 2 ^ 16 → mask ≠ 0 →
      ∀ pos, 16 < pos + popcount mask →
        ∀ regs, pushUdAux ud mask pos regs = none := by
  intro mask
  induction mask using Nat.strong_induction_on with
  | _ mask ih =>
    intro hm16 hm0 pos hover regs
    have hm32 : mask < 2 ^ 32 := lt_of_lt_of_le hm16 (by norm_num)
    have hi0lt32 : countr_zero mask < 32 := countr_zero_lt hm0 hm32
    have hb0 : mask.testBit (countr_zero mask) = true := countr_zero_testBit hi0lt32
    have hi016 : countr_zero mask < 16 := testBit_lt_of_lt_two_pow hm16 hb0
    by_cases hpos : pos < 16
    · rw [pushUdAux_step ud regs mask pos hm0 hpos hi016]
      have hmem : countr_zero mask ∈
          (Finset.range 32).filter fun j => mask.testBit j = true := by
        simp [Finset.mem_filter, Finset.mem_range, hi0lt32, hb0]
      have hpc' : popcount (mask &&& (4294967295 ^^^ (1 <<< countr_zero mask))) =
          popcount mask - 1 := by
        rw [popcount_eq_card, popcount_eq_card,
          filter_clear32 mask (countr_zero mask) 32 hi0lt32 le_rfl,
          Finset.card_erase_of_mem hmem]
      have hpc1 : 1 ≤ popcount mask := by
        rw [popcount_eq_card]
        exact Finset.card_pos.mpr ⟨_, hmem⟩
      have hm'0 : mask &&& (4294967295 ^^^ (1 <<< countr_zero mask)) ≠ 0 := by
        intro h
        rw [h] at hpc'
        have h0 : popcount 0 = 0 := by decide
        omega
      exact ih _ (and_clear_lt mask hm0 hm32) (lt_of_le_of_lt Nat.and_le_left hm16)
        hm'0 (pos + 1) (by omega) _
    · exact pushUdAux_fail ud regs mask pos hm0 fun hg => hpos hg.1

/-! ### Claim theorems -/

/-- C1 (counterexample): in the spec's end-to-end scenario — 2 buffers,
1 texel buffer, 1 image, 0 samplers, a register mask with 3 bits set,
zeroed accumulator — `AddBindings` leaves the unified counter at 4, not 5
as the claim states. -/
theorem addBindings_scenario_unified_ne_five :
    (Info.AddBindings scenarioC1 { unified := 0, buffer := 0, user_data := 0 }).unified ≠ 5 := by
  decide

/-- C1 (amended): `AddBindings` adds (buffer count + texel-buffer count) to
the buffer counter, that sum plus the image and sampler counts to the
unified counter, and the register map's set-bit count to the user-data
counter; the spec's scenario therefore turns a zeroed accumulator into
buffer slot 3, unified slot 4, user-data slot 3. -/
theorem addBindings_spec (info : Info) (bnd : Backend.Bindings) :
    ((info.AddBindings bnd).buffer =
        bnd.buffer + (info.buffers.length + info.texture_buffers.length) ∧
      (info.AddBindings bnd).unified =
        bnd.unified + (info.buffers.length + info.texture_buffers.length) +
          info.images.length + info.samplers.length ∧
      (info.AddBindings bnd).user_data = bnd.user_data + info.ud_mask.NumRegs) ∧
    Info.AddBindings scenarioC1 { unified := 0, buffer := 0, user_data := 0 } =
      { unified := 4, buffer := 3, user_data := 3 } :=
  ⟨⟨rfl, rfl, rfl⟩, by decide⟩

/-- C10: `IsStorage` classifies a buffer as a storage buffer exactly when
the descriptor's size exceeds `MaxUboSize` (65536 bytes), the entry is
marked written, or the entry is a GDS buffer. -/
theorem isStorage_iff (r : BufferResource) (b : AmdGpu.Buffer) :
    MaxUboSize = 65536 ∧
    (r.IsStorage b = true ↔
      (MaxUboSize < b.GetSize ∨ r.is_written = true ∨ r.is_gds_buffer = true)) := by
  refine ⟨rfl, ?_⟩
  simp [BufferResource.IsStorage, or_assoc]

/-- C9: the per-draw constant block always serialises to exactly 104 bytes —
4 bytes `step0` at offset 0, 4 bytes `step1` at offset 4, the 32 per-binding
offset bytes at offset 8, and the 16 compacted 32-bit register words at
offset 40 — independent of the record's contents, and 104 ≤ 128, the host
API's guaranteed minimum constant-block size. -/
theorem pushData_layout_spec (p : PushData) :
    p.toBytes.length = 104 ∧
    104 ≤ 128 ∧
    p.toBytes.take 4 = bytesLE 4 p.step0 ∧
    ((p.toBytes.drop 4).take 4 = bytesLE 4 p.step1) ∧
    ((p.toBytes.drop 8).take 32 =
      ((List.range 32).map fun i => p.buf_offsets.getD i 0 % 256)) ∧
    (p.toBytes.drop 40 =
      (((List.range NumUserDataRegs).map fun i => bytesLE 4 (p.ud_regs.getD i 0)).flatten)) := by
  have hA : (bytesLE 4 p.step0).length = 4 := by simp [bytesLE]
  have hB : (bytesLE 4 p.step1).length = 4 := by simp [bytesLE]
  have hC : ((List.range 32).map fun i => p.buf_offsets.getD i 0 % 256).length = 32 := by
    simp
  have hw : ∀ l ∈ (List.range NumUserDataRegs).map fun i => bytesLE 4 (p.ud_regs.getD i 0),
      l.length = 4 := by
    intro l hl
    obtain ⟨i, -, rfl⟩ := List.mem_map.mp hl
    simp [bytesLE]
  have hD := flatten_length_const _ 4 hw
  rw [List.length_map, List.length_range] at hD
  have hD64 : (((List.range NumUserDataRegs).map fun i =>
      bytesLE 4 (p.ud_regs.getD i 0)).flatten).length = 64 := by
    rw [hD]
    rfl
  refine ⟨?_, by norm_num, ?_, ?_, ?_, ?_⟩
  · rw [PushData.toBytes, List.length_append, List.length_append, List.length_append,
      hA, hB, hC, hD64]
  · rw [PushData.toBytes, List.append_assoc, List.append_assoc, List.take_left' hA]
  · rw [PushData.toBytes, List.append_assoc, List.append_assoc, List.drop_left' hA,
      List.take_left' hB]
  · rw [PushData.toBytes, List.append_assoc, List.drop_left' (by simp [hA, hB]),
      List.take_left' hC]
  · rw [PushData.toBytes, List.drop_left' (by simp [hA, hB, hC])]

/-- C8: `GetDrawOffsets` yields 0 for an offset-register field left at the
sentinel (-1) and the value of the user-data register at the field's index
otherwise; a record with vertex register index 3 and `user_data[3] = 0x40`
yields (0x40, 0).  The function is a pure projection of the record. -/
theorem getDrawOffsets_spec (info : Info) :
    ((info.GetDrawOffsets).1 =
      if info.vertex_offset_sgpr = -1 then 0
      else info.user_data.getD info.vertex_offset_sgpr.toNat 0) ∧
    ((info.GetDrawOffsets).2 =
      if info.instance_offset_sgpr = -1 then 0
      else info.user_data.getD info.instance_offset_sgpr.toNat 0) ∧
    Info.GetDrawOffsets scenarioC8 = (0x40, 0) := by
  refine ⟨?_, ?_, by decide⟩
  · unfold Info.GetDrawOffsets
    by_cases h : info.vertex_offset_sgpr = -1 <;> simp [h]
  · unfold Info.GetDrawOffsets
    by_cases h : info.instance_offset_sgpr = -1 <;> simp [h]

/-- C4: called with the "no indirection" sentinel index (`NumScalarRegs`),
`ReadUd` reads the bytes directly from the captured user-data register
words at the given dword offset, and the result is independent of emulated
memory — no pointer loaded from a user-data register is ever
dereferenced. -/
theorem readUd_sentinel_inline (info : Info) (mem mem' : Nat → Nat)
    (tsize dword_offset : Nat) :
    info.ReadUd mem tsize NumScalarRegs dword_offset =
      ((List.range tsize).map fun k => udRegByte info.user_data (4 * dword_offset + k)) ∧
    info.ReadUd mem tsize NumScalarRegs dword_offset =
      info.ReadUd mem' tsize NumScalarRegs dword_offset := by
  have h : ¬(NumScalarRegs ≠ NumScalarRegs) := fun hc => hc rfl
  constructor
  · unfold Info.ReadUd
    rw [if_neg h]
  · unfold Info.ReadUd
    rw [if_neg h, if_neg h]

/-- C6: with a non-sentinel register index, `ReadUd` assembles the 64-bit
pointer from the two user-data words at that index, masks it to its low 48
bits (`AddressMask48 = 2 ^ 48 - 1`), and reads the descriptor's bytes
starting at the masked address plus `dword_offset * 4`. -/
theorem readUd_indirect_spec (info : Info) (mem : Nat → Nat)
    (tsize ptr_index dword_offset : Nat) (h : ptr_index ≠ NumScalarRegs) :
    AddressMask48 = 2 ^ 48 - 1 ∧
    info.ReadUd mem tsize ptr_index dword_offset =
      ((List.range tsize).map fun k =>
        mem ((info.user_data.getD ptr_index 0 +
          2 ^ 32 * info.user_data.getD (ptr_index + 1) 0) % 2 ^ 48 +
          4 * dword_offset + k)) := by
  have hmask : AddressMask48 = 2 ^ 48 - 1 := by norm_num [AddressMask48]
  refine ⟨hmask, ?_⟩
  unfold Info.ReadUd
  rw [if_pos h]
  simp only [hmask, Nat.and_pow_two_sub_one_eq_mod]

/-- Witness for C6: a concrete record whose registers 0 and 1 hold the
pointer `0x00FF123489ABCDEF`, read through a concrete memory image. -/
theorem readUd_indirect_spec_witness :
    ((0 : Nat) ≠ NumScalarRegs) ∧
    (AddressMask48 = 2 ^ 48 - 1 ∧
      scenarioC6.ReadUd (fun a => a % 251) 4 0 2 =
        ((List.range 4).map fun k =>
          (fun a => a % 251) ((scenarioC6.user_data.getD 0 0 +
            2 ^ 32 * scenarioC6.user_data.getD 1 0) % 2 ^ 48 +
            4 * 2 + k))) :=
  ⟨by decide, readUd_indirect_spec scenarioC6 (fun a => a % 251) 4 0 2 (by decide)⟩

theorem rank_card_lt {m i k : Nat} (hb : m.testBit i = true) (hik : i < k) :
    ((Finset.range i).filter fun j => m.testBit j = true).card <
      ((Finset.range k).filter fun j => m.testBit j = true).card := by
  have hstep : ((Finset.range (i + 1)).filter fun j => m.testBit j = true) =
      insert i ((Finset.range i).filter fun j => m.testBit j = true) := by
    rw [Finset.range_succ, Finset.filter_insert, if_pos hb]
  have hsub : ((Finset.range (i + 1)).filter fun j => m.testBit j = true) ⊆
      ((Finset.range k).filter fun j => m.testBit j = true) :=
    Finset.filter_subset_filter _ (Finset.range_subset.mpr hik)
  have hcard := Finset.card_le_card hsub
  rw [hstep, Finset.card_insert_of_not_mem (by simp)] at hcard
  omega

/-- C5: a resource entry carrying an inline descriptor resolves to that
descriptor unchanged, and the result is independent of the owning record
and of emulated memory — no user-data register or memory read happens; the
indirect `ReadUd` path is taken exactly when the entry carries no inline
descriptor. -/
theorem getSharp_inline_spec (r : BufferResource) (s : SamplerResource)
    (b : AmdGpu.Buffer) (sp : AmdGpu.Sampler)
    (hb : r.inline_cbuf = some b) (hs : s.inline_sampler = some sp) :
    (∀ (dec : List Nat → AmdGpu.Buffer) (info : Info) (mem : Nat → Nat),
      r.GetSharp dec info mem = b) ∧
    (∀ (dec : List Nat → AmdGpu.Sampler) (info : Info) (mem : Nat → Nat),
      s.GetSharp dec info mem = sp) ∧
    (∀ (r' : BufferResource), r'.inline_cbuf = none →
      ∀ (dec : List Nat → AmdGpu.Buffer) (info : Info) (mem : Nat → Nat),
        r'.GetSharp dec info mem =
          dec (info.ReadUd mem BufferSharpBytes r'.sgpr_base r'.dword_offset)) ∧
    (∀ (s' : SamplerResource), s'.inline_sampler = none →
      ∀ (dec : List Nat → AmdGpu.Sampler) (info : Info) (mem : Nat → Nat),
        s'.GetSharp dec info mem =
          dec (info.ReadUd mem SamplerSharpBytes s'.sgpr_base s'.dword_offset)) := by
  refine ⟨?_, ?_, ?_, ?_⟩
  · intro dec info mem
    simp [BufferResource.GetSharp, hb]
  · intro dec info mem
    simp [SamplerResource.GetSharp, hs]
  · intro r' hr' dec info mem
    simp [BufferResource.GetSharp, hr']
  · intro s' hs' dec info mem
    simp [SamplerResource.GetSharp, hs']

/-- Witness for C5 at concrete inline buffer and sampler entries. -/
theorem getSharp_inline_spec_witness :
    (inlineBufferEntry.inline_cbuf = some ⟨0x1000, 64⟩ ∧
      inlineSamplerEntry.inline_sampler = some ⟨42⟩) ∧
    ((∀ (dec : List Nat → AmdGpu.Buffer) (info : Info) (mem : Nat → Nat),
      inlineBufferEntry.GetSharp dec info mem = ⟨0x1000, 64⟩) ∧
    (∀ (dec : List Nat → AmdGpu.Sampler) (info : Info) (mem : Nat → Nat),
      inlineSamplerEntry.GetSharp dec info mem = ⟨42⟩) ∧
    (∀ (r' : BufferResource), r'.inline_cbuf = none →
      ∀ (dec : List Nat → AmdGpu.Buffer) (info : Info) (mem : Nat → Nat),
        r'.GetSharp dec info mem =
          dec (info.ReadUd mem BufferSharpBytes r'.sgpr_base r'.dword_offset)) ∧
    (∀ (s' : SamplerResource), s'.inline_sampler = none →
      ∀ (dec : List Nat → AmdGpu.Sampler) (info : Info) (mem : Nat → Nat),
        s'.GetSharp dec info mem =
          dec (info.ReadUd mem SamplerSharpBytes s'.sgpr_base s'.dword_offset))) :=
  ⟨⟨rfl, rfl⟩,
    getSharp_inline_spec inlineBufferEntry inlineSamplerEntry ⟨0x1000, 64⟩ ⟨42⟩ rfl rfl⟩

/-- C3: for a `u32` register mask, `NumRegs` is the number of set bits,
`Index` of a set bit is the number of set bits strictly below it (the
popcount of the mask with the bits at and above it cleared), and the
`Index` values of the set bits are exactly the contiguous range
`[0, NumRegs)`. -/
theorem userDataMask_rank_spec (m : UserDataMask) (hm : m.mask < 2 ^ 32) :
    m.NumRegs = ((Finset.range 32).filter fun j => m.mask.testBit j = true).card ∧
    (∀ i, m.mask.testBit i = true →
      m.Index i = ((Finset.range i).filter fun j => m.mask.testBit j = true).card) ∧
    Finset.image m.Index ((Finset.range 32).filter fun j => m.mask.testBit j = true) =
      Finset.range m.NumRegs := by
  have hcount := UserDataMask.NumRegs_eq_card m
  have hidx : ∀ i, i < 32 →
      m.Index i = ((Finset.range i).filter fun j => m.mask.testBit j = true).card :=
    fun i hi => UserDataMask.Index_eq_card m i (by omega)
  refine ⟨hcount, fun i hb => hidx i (testBit_lt_of_lt_two_pow hm hb), ?_⟩
  have hmemS : ∀ i ∈ (Finset.range 32).filter fun j => m.mask.testBit j = true,
      m.mask.testBit i = true ∧ i < 32 := by
    intro i hi
    have h := Finset.mem_filter.mp hi
    exact ⟨h.2, Finset.mem_range.mp h.1⟩
  have hmono : ∀ i ∈ (Finset.range 32).filter fun j => m.mask.testBit j = true,
      ∀ j ∈ (Finset.range 32).filter fun j => m.mask.testBit j = true,
      i < j → m.Index i < m.Index j := by
    intro i hi j hj hij
    obtain ⟨hbi, hi32⟩ := hmemS i hi
    obtain ⟨hbj, hj32⟩ := hmemS j hj
    rw [hidx i hi32, hidx j hj32]
    exact rank_card_lt hbi hij
  have hinj : Set.InjOn m.Index
      ((Finset.range 32).filter fun j => m.mask.testBit j = true) := by
    intro a ha b hb heq
    by_contra hne
    rcases Nat.lt_or_ge a b with h | h
    · exact absurd heq (Nat.ne_of_lt (hmono a ha b hb h))
    · have hba : b < a := by omega
      exact absurd heq.symm (Nat.ne_of_lt (hmono b hb a ha hba))
  have hsubset : Finset.image m.Index
      ((Finset.range 32).filter fun j => m.mask.testBit j = true) ⊆
      Finset.range m.NumRegs := by
    intro x hx
    obtain ⟨i, hiS, rfl⟩ := Finset.mem_image.mp hx
    obtain ⟨hbi, hi32⟩ := hmemS i hiS
    rw [Finset.mem_range, hcount, hidx i hi32]
    exact rank_card_lt hbi hi32
  apply Finset.eq_of_subset_of_card_le hsubset
  rw [Finset.card_range, Finset.card_image_of_injOn hinj, hcount]

/-- Witness for C3 at the concrete mask with bits {2, 3, 6}. -/
theorem userDataMask_rank_spec_witness :
    (UserDataMask.mk 76).mask < 2 ^ 32 ∧
    ((UserDataMask.mk 76).NumRegs =
        ((Finset.range 32).filter fun j => (UserDataMask.mk 76).mask.testBit j = true).card ∧
      (∀ i, (UserDataMask.mk 76).mask.testBit i = true →
        (UserDataMask.mk 76).Index i =
          ((Finset.range i).filter fun j => (UserDataMask.mk 76).mask.testBit j = true).card) ∧
      Finset.image (UserDataMask.mk 76).Index
          ((Finset.range 32).filter fun j => (UserDataMask.mk 76).mask.testBit j = true) =
        Finset.range (UserDataMask.mk 76).NumRegs) :=
  ⟨by decide, userDataMask_rank_spec ⟨76⟩ (by decide)⟩

/-- C2: under the capacity precondition, `PushUd` writes each used register
into the compacted array at offset `Index` (its rank in ascending
register-index order) past the incoming counter, advances the counter by
the mask's popcount, leaves lower array entries untouched, and the mask —
hence the packing — is independent of the order of the `Set` calls that
built it. -/
theorem pushUd_packs_spec (info : Info) (bnd : Backend.Bindings) (push : PushData)
    (hbits : ∀ i, info.ud_mask.mask.testBit i = true → i < NumUserDataRegs)
    (hcap : bnd.user_data + info.ud_mask.NumRegs ≤ NumUserDataRegs)
    (hlen : push.ud_regs.length = NumUserDataRegs) :
    (∃ bnd' push',
      info.PushUd bnd push = some (bnd', push') ∧
      bnd'.user_data = bnd.user_data + info.ud_mask.NumRegs ∧
      (∀ i, info.ud_mask.mask.testBit i = true →
        push'.ud_regs.getD (bnd.user_data + info.ud_mask.Index i) 0 =
          info.user_data.getD i 0) ∧
      (∀ q, q < bnd.user_data → push'.ud_regs.getD q 0 = push.ud_regs.getD q 0)) ∧
    (∀ (m : UserDataMask) (a b : Nat), (m.Set a).Set b = (m.Set b).Set a) := by
  constructor
  · have hm16 : info.ud_mask.mask < 2 ^ 16 := lt_two_pow_of_testBit_lt hbits
    obtain ⟨regs', heq, hlen', hget, hpres⟩ :=
      pushUdAux_spec info.user_data info.ud_mask.mask hm16 bnd.user_data push.ud_regs
        hcap hlen
    refine ⟨{ bnd with user_data := bnd.user_data + info.ud_mask.NumRegs },
      { push with ud_regs := regs' }, ?_, rfl, ?_, ?_⟩
    · unfold Info.PushUd
      rw [heq]
      rfl
    · intro i hbi
      have hi16 : i < NumUserDataRegs := hbits i hbi
      have hi16' : i < 16 := hi16
      rw [UserDataMask.Index_eq_card info.ud_mask i (by omega)]
      exact hget i hbi
    · intro q hq
      exact hpres q hq
  · intro m a b
    simp only [UserDataMask.Set]
    apply congrArg UserDataMask.mk
    rw [Nat.or_assoc, Nat.or_assoc, Nat.or_comm (1 <<< a) (1 <<< b)]

/-- Witness for C2: the mask with bits {2, 5, 9} packed into a zeroed
constant block starting at user-data slot 1. -/
theorem pushUd_packs_spec_witness :
    ((∀ i, scenarioC2.ud_mask.mask.testBit i = true → i < NumUserDataRegs) ∧
      ({ unified := 0, buffer := 0, user_data := 1 } : Backend.Bindings).user_data +
        scenarioC2.ud_mask.NumRegs ≤ NumUserDataRegs ∧
      zeroPush.ud_regs.length = NumUserDataRegs) ∧
    ((∃ bnd' push',
      scenarioC2.PushUd { unified := 0, buffer := 0, user_data := 1 } zeroPush =
        some (bnd', push') ∧
      bnd'.user_data =
        ({ unified := 0, buffer := 0, user_data := 1 } : Backend.Bindings).user_data +
          scenarioC2.ud_mask.NumRegs ∧
      (∀ i, scenarioC2.ud_mask.mask.testBit i = true →
        push'.ud_regs.getD
          (({ unified := 0, buffer := 0, user_data := 1 } : Backend.Bindings).user_data +
            scenarioC2.ud_mask.Index i) 0 =
          scenarioC2.user_data.getD i 0) ∧
      (∀ q, q < ({ unified := 0, buffer := 0, user_data := 1 } : Backend.Bindings).user_data →
        push'.ud_regs.getD q 0 = zeroPush.ud_regs.getD q 0)) ∧
    (∀ (m : UserDataMask) (a b : Nat), (m.Set a).Set b = (m.Set b).Set a)) := by
  have h1 : ∀ i, scenarioC2.ud_mask.mask.testBit i = true → i < NumUserDataRegs :=
    fun i hi =>
      testBit_lt_of_lt_two_pow
        (show scenarioC2.ud_mask.mask < 2 ^ NumUserDataRegs by decide) hi
  have h2 : ({ unified := 0, buffer := 0, user_data := 1 } : Backend.Bindings).user_data +
      scenarioC2.ud_mask.NumRegs ≤ NumUserDataRegs := by decide
  have h3 : zeroPush.ud_regs.length = NumUserDataRegs := by decide
  exact ⟨⟨h1, h2, h3⟩, pushUd_packs_spec scenarioC2 _ zeroPush h1 h2 h3⟩

/-- C7: `PushUd` hits its fatal assertion exactly when some set register
index is at or above `NumUserDataRegs` (16) or the nonempty mask would push
the user-data counter past the 16-slot capacity; under the claim's
precondition (all set bits below 16 and initial counter plus popcount at
most 16) it completes without asserting. -/
theorem pushUd_assert_iff (info : Info) (bnd : Backend.Bindings) (push : PushData)
    (hm32 : info.ud_mask.mask < 2 ^ 32)
    (hlen : push.ud_regs.length = NumUserDataRegs) :
    info.PushUd bnd push = none ↔
      ((∃ i, info.ud_mask.mask.testBit i = true ∧ NumUserDataRegs ≤ i) ∨
        (info.ud_mask.mask ≠ 0 ∧
          NumUserDataRegs < bnd.user_data + info.ud_mask.NumRegs)) := by
  have hN : NumUserDataRegs = 16 := rfl
  constructor
  · intro hnone
    by_contra hcon
    push_neg at hcon
    obtain ⟨hno_high, himp⟩ := hcon
    by_cases hm0 : info.ud_mask.mask = 0
    · unfold Info.PushUd at hnone
      rw [hm0, pushUdAux_zero] at hnone
      simp at hnone
    · have hcap : bnd.user_data + info.ud_mask.NumRegs ≤ NumUserDataRegs := by
        have := himp hm0
        omega
      have hbits : ∀ i, info.ud_mask.mask.testBit i = true → i < NumUserDataRegs := by
        intro i hi
        have := hno_high i hi
        omega
      have hm16 : info.ud_mask.mask < 2 ^ 16 := lt_two_pow_of_testBit_lt hbits
      obtain ⟨regs', heq, -, -, -⟩ :=
        pushUdAux_spec info.user_data info.ud_mask.mask hm16 bnd.user_data
          push.ud_regs hcap hlen
      unfold Info.PushUd at hnone
      rw [heq] at hnone
      simp at hnone
  · rintro (⟨i, hbi, hi16⟩ | ⟨hm0, hover⟩)
    · unfold Info.PushUd
      rw [pushUdAux_none_highbit info.user_data info.ud_mask.mask hm32 i hbi hi16
        bnd.user_data push.ud_regs]
    · by_cases hex : ∃ i, info.ud_mask.mask.testBit i = true ∧ NumUserDataRegs ≤ i
      · obtain ⟨i, hbi, hi16⟩ := hex
        unfold Info.PushUd
        rw [pushUdAux_none_highbit info.user_data info.ud_mask.mask hm32 i hbi hi16
          bnd.user_data push.ud_regs]
      · push_neg at hex
        have hbits : ∀ i, info.ud_mask.mask.testBit i = true → i < NumUserDataRegs := by
          intro i hi
          have := hex i hi
          omega
        have hm16 : info.ud_mask.mask < 2 ^ 16 := lt_two_pow_of_testBit_lt hbits
        have hNR : info.ud_mask.NumRegs = popcount info.ud_mask.mask := rfl
        unfold Info.PushUd
        rw [pushUdAux_none_overflow info.user_data info.ud_mask.mask hm16 hm0
          bnd.user_data (by omega) push.ud_regs]

/-- Witness for C7: the mask with the out-of-range bits 16 and 17 set. -/
theorem pushUd_assert_iff_witness :
    (scenarioC7.ud_mask.mask < 2 ^ 32 ∧ zeroPush.ud_regs.length = NumUserDataRegs) ∧
    (scenarioC7.PushUd { unified := 0, buffer := 0, user_data := 0 } zeroPush = none ↔
      ((∃ i, scenarioC7.ud_mask.mask.testBit i = true ∧ NumUserDataRegs ≤ i) ∨
        (scenarioC7.ud_mask.mask ≠ 0 ∧
          NumUserDataRegs <
            ({ unified := 0, buffer := 0, user_data := 0 } : Backend.Bindings).user_data +
              scenarioC7.ud_mask.NumRegs))) := by
  have h1 : scenarioC7.ud_mask.mask < 2 ^ 32 := by decide
  have h2 : zeroPush.ud_regs.length = NumUserDataRegs := by decide
  exact ⟨⟨h1, h2⟩, pushUd_assert_iff scenarioC7 _ zeroPush h1 h2⟩

end Shader
